import Mathlib

/-!
Verification development for `gplot++.h`, a header-only C++ interface that
drives a Gnuplot subprocess through a pipe.

The `Gnuplot` class is embedded shallowly:

* machine doubles become `ℚ` (the claims under study concern exact
  arithmetic on representable inputs, never rounding);
* the `NAN`-as-"automatic bound" sentinel used by the range setters becomes
  `Option ℚ` (`none` = automatic, mirroring the `std::isnan` tests);
* the pipe (`FILE *connection`) becomes a `Bool` (alive or not), since the
  only observable use of the handle is the null test in `ok()`;
* a failed `assert` and a `std::vector::at` / out-of-bounds access are
  modelled as `Except CppError` results;
* the textual data block a series carries (`data_string` in the source) is
  kept structured as its list of rows (`data : List (List ℚ)`), each row
  being the list of column values printed on one line; `dataToString`
  recovers the serialized form;
* `show`'s writes to the pipe are captured as a structured `PlotScript`
  value (the data blocks, the ranges, and the per-series clauses of the
  composite plot command) instead of raw text.
-/

/-- Decimal digits of a natural number, most significant first, as produced
by stream insertion of an integral value.  Structural recursion on a fuel
argument (any fuel above the digit count yields the digits; `natToDigits`
supplies `n + 1`, which always suffices since `n / 10` shrinks). -/
def natToDigitsAux : Nat → Nat → List Char
  | 0, _ => []
  | fuel + 1, n =>
    if n < 10 then [Char.ofNat (48 + n)]
    else natToDigitsAux fuel (n / 10) ++ [Char.ofNat (48 + n % 10)]

def natToDigits (n : Nat) : List Char :=
  natToDigitsAux (n + 1) n

def natToStr (n : Nat) : String :=
  String.mk (natToDigits n)

/-- Rendering of a rational to text, standing in for C++ stream insertion of
a `double`: an optional minus sign followed by digits (and, for non-integral
values, a separator and more digits).  The claims only depend on which
characters can appear (digits, minus, separator), never on the exact
decimal form. -/
def ratToStr (q : ℚ) : String :=
  (if q.num < 0 then "-" else "") ++ natToStr q.num.natAbs ++
    (if q.den = 1 then "" else "/" ++ natToStr q.den)

/-- The single-quote character, written via its code point. -/
def quoteChar : Char := Char.ofNat 39

/-- The asterisk Gnuplot uses for an automatic range bound. -/
def starChar : Char := Char.ofNat 42

/-- `Gnuplot::LineStyle`. -/
inductive LineStyle
  | DOTS
  | LINES
  | POINTS
  | LINESPOINTS
  | STEPS
  | BOXES
  | X_ERROR_BARS
  | Y_ERROR_BARS
  | XY_ERROR_BARS
  | VECTORS
deriving DecidableEq, Repr

/-- The two failure modes of the C++ code: a failed `assert`, and an
out-of-range element access (`std::vector::at`, or the undefined behavior of
`operator[]` past the end). -/
inductive CppError
  | assertFail
  | outOfBounds
deriving DecidableEq, Repr

deriving instance DecidableEq for Except

/-- `Gnuplot::GnuplotSeries`.  The source stores the rows as already
serialized text in `data_string`; here `data` keeps the rows structured
(one inner list per line of the data block). -/
structure GnuplotSeries where
  data : List (List ℚ)
  line_style : LineStyle
  title : String
  column_range : String
deriving DecidableEq, Repr

/-- The mutable state of a `Gnuplot` object: the pipe (alive or not), the
pending series, the temporary-file list, the three range descriptor
strings, and the 2D/3D flag. -/
structure Gnuplot where
  connection : Bool
  series : List GnuplotSeries
  files_to_delete : List String
  xrange : String
  yrange : String
  zrange : String
  is_3dplot : Bool
deriving DecidableEq, Repr

/-- `Gnuplot::escape_quotes`, one loop step per character: a single quote is
emitted doubled, anything else verbatim. -/
def escList : List Char → List Char
  | [] => []
  | c :: cs => (if c = quoteChar then [quoteChar, quoteChar] else [c]) ++ escList cs

def escape_quotes (s : String) : String :=
  String.mk (escList s.data)

/-- `Gnuplot::format_range`.  `none` plays the role of the `NAN` sentinel
checked with `std::isnan`. -/
def format_range (mn mx : Option ℚ) : String :=
  match mn, mx with
  | none, none => "[]"
  | _, _ =>
    "[" ++ (match mn with | none => "*" | some a => ratToStr a) ++ ":" ++
      (match mx with | none => "*" | some b => ratToStr b) ++ "]"

/-- `Gnuplot::set_xrange` (default arguments `NAN`, i.e. `none`). -/
def set_xrange (mn mx : Option ℚ) (s : Gnuplot) : Gnuplot :=
  { s with xrange := format_range mn mx }

/-- `Gnuplot::set_yrange`. -/
def set_yrange (mn mx : Option ℚ) (s : Gnuplot) : Gnuplot :=
  { s with yrange := format_range mn mx }

/-- `Gnuplot::set_zrange`. -/
def set_zrange (mn mx : Option ℚ) (s : Gnuplot) : Gnuplot :=
  { s with zrange := format_range mn mx }

/-- The `Gnuplot` constructor: empty series and file lists, 3D flag clear,
the three ranges initialized through the setters (the `std::string` fields
start out empty).  `connected` records whether `popen` succeeded. -/
def initGnuplot (connected : Bool) : Gnuplot :=
  set_zrange none none (set_yrange none none (set_xrange none none
    { connection := connected
      series := []
      files_to_delete := []
      xrange := ""
      yrange := ""
      zrange := ""
      is_3dplot := false }))

/-- `Gnuplot::style_to_str` (the `default` branch of the `switch` returns
`"lines"`, which is where `LINES` lands). -/
def style_to_str : LineStyle → String
  | .DOTS => "dots"
  | .POINTS => "points"
  | .LINESPOINTS => "linespoints"
  | .STEPS => "steps"
  | .BOXES => "boxes"
  | .X_ERROR_BARS => "xerrorbars"
  | .Y_ERROR_BARS => "yerrorbars"
  | .XY_ERROR_BARS => "xyerrorbars"
  | .VECTORS => "vectors"
  | .LINES => "lines"

/-- One row of `_print_ith_elements`: element `i` of each column vector, in
order.  `operator[]` past the end is undefined behavior in C++; it is
modelled as an explicit `outOfBounds` failure. -/
def getRow (cols : List (List ℚ)) (i : Nat) : Except CppError (List ℚ) :=
  match cols with
  | [] => .ok []
  | c :: cs =>
    match c.get? i with
    | none => .error .outOfBounds
    | some x =>
      match getRow cs i with
      | .error e => .error e
      | .ok xs => .ok (x :: xs)

def buildRowsAux (cols : List (List ℚ)) : List Nat → Except CppError (List (List ℚ))
  | [] => .ok []
  | i :: is =>
    match getRow cols i with
    | .error e => .error e
    | .ok row =>
      match buildRowsAux cols is with
      | .error e => .error e
      | .ok rows => .ok (row :: rows)

/-- The row-building loop of `_plot`: one row per index `0 ≤ i < n`. -/
def buildRows (cols : List (List ℚ)) (n : Nat) : Except CppError (List (List ℚ)) :=
  buildRowsAux cols (List.range n)

/-- The rows `buildRows` yields when every column is long enough. -/
def rowsOf (cols : List (List ℚ)) (n : Nat) : List (List ℚ) :=
  (List.range n).map (fun i => cols.map (fun c => c.getD i 0))

/-- The `fmts` string `_print_ith_elements` accumulates at row 0: column
index `index`, then `index+1`, ..., one per remaining vector, separated by
colons (a colon precedes every index greater than 1). -/
def fmtFrom (index : Nat) : Nat → String
  | 0 => ""
  | k + 1 => (if 1 < index then ":" else "") ++ natToStr index ++ fmtFrom (index + 1) k

/-- `Gnuplot::_plot`: empty primary vector is a silent no-op; adding to a
non-empty pending list with the wrong dimensionality fails the
`assert(is_3dplot == is_this_3dplot)`; otherwise the zipped rows are built
and the series is appended, the 3D flag taking the dimensionality of this
call.  `cols` collects the variadic vector arguments, the primary first. -/
def _plot (label : String) (style : LineStyle) (is_this_3dplot : Bool)
    (cols : List (List ℚ)) (s : Gnuplot) : Except CppError Gnuplot :=
  match cols with
  | [] => .ok s
  | v :: rest =>
    if v = [] then .ok s
    else if s.series ≠ [] ∧ s.is_3dplot ≠ is_this_3dplot then .error .assertFail
    else
      match buildRows (v :: rest) v.length with
      | .error e => .error e
      | .ok rows =>
        .ok { s with
              series := s.series ++
                [⟨rows, style, label, fmtFrom 1 (v :: rest).length⟩]
              is_3dplot := is_this_3dplot }

/-- `Gnuplot::plot(y, label, style)` — the single-vector overload. -/
def plot1 (y : List ℚ) (label : String) (style : LineStyle) (s : Gnuplot) :
    Except CppError Gnuplot :=
  _plot label style false [y] s

/-- `Gnuplot::plot(x, y, label, style)`. -/
def plot2 (x y : List ℚ) (label : String) (style : LineStyle) (s : Gnuplot) :
    Except CppError Gnuplot :=
  _plot label style false [x, y] s

/-- `Gnuplot::plot_xerr`. -/
def plot_xerr (x y err : List ℚ) (label : String) (s : Gnuplot) :
    Except CppError Gnuplot :=
  _plot label .X_ERROR_BARS false [x, y, err] s

/-- `Gnuplot::plot_yerr`. -/
def plot_yerr (x y err : List ℚ) (label : String) (s : Gnuplot) :
    Except CppError Gnuplot :=
  _plot label .Y_ERROR_BARS false [x, y, err] s

/-- `Gnuplot::plot_xyerr`. -/
def plot_xyerr (x y xerr yerr : List ℚ) (label : String) (s : Gnuplot) :
    Except CppError Gnuplot :=
  _plot label .XY_ERROR_BARS false [x, y, xerr, yerr] s

/-- `Gnuplot::plot_vectors`. -/
def plot_vectors (x y vx vy : List ℚ) (label : String) (s : Gnuplot) :
    Except CppError Gnuplot :=
  _plot label .VECTORS false [x, y, vx, vy] s

/-- `Gnuplot::plot3d`. -/
def plot3d (x y z : List ℚ) (label : String) (style : LineStyle) (s : Gnuplot) :
    Except CppError Gnuplot :=
  _plot label style true [x, y, z] s

/-- `Gnuplot::plot_vectors3d`. -/
def plot_vectors3d (x y z vx vy vz : List ℚ) (label : String) (s : Gnuplot) :
    Except CppError Gnuplot :=
  _plot label .VECTORS true [x, y, z, vx, vy, vz] s

/-- `*std::min_element(...)` of `histogram` (only reached on a non-empty
vector; the `[]` case is arbitrary). -/
def listMin : List ℚ → ℚ
  | [] => 0
  | x :: xs => xs.foldl min x

/-- `*std::max_element(...)` of `histogram`. -/
def listMax : List ℚ → ℚ
  | [] => 0
  | x :: xs => xs.foldl max x

/-- `static_cast<int>` applied to a non-integral value: truncation toward
zero (floor for non-negative arguments, ceiling for negative ones). -/
def cppTrunc (q : ℚ) : Int :=
  if 0 ≤ q then ⌊q⌋ else ⌈q⌉

/-- `binwidth` as computed by `histogram`. -/
def binWidthOf (values : List ℚ) (nbins : Nat) : ℚ :=
  (listMax values - listMin values) / (nbins : ℚ)

/-- The bin index `histogram` computes for one value: truncate
`(val - min) / binwidth`, then decrement once if the result reached
`nbins`. -/
def binIndexOf (mn w : ℚ) (nbins : Nat) (v : ℚ) : Int :=
  let index := cppTrunc ((v - mn) / w)
  if (nbins : Int) ≤ index then index - 1 else index

/-- The bin-filling loop of `histogram`; `bins.at(index)` throws on an
index outside `[0, bins.size())`, modelled as `outOfBounds`. -/
def fillBins (mn w : ℚ) (nbins : Nat) : List ℚ → List Nat → Except CppError (List Nat)
  | [], bins => .ok bins
  | v :: rest, bins =>
    let idx := binIndexOf mn w nbins v
    if h : 0 ≤ idx ∧ idx.toNat < bins.length then
      fillBins mn w nbins rest (bins.set idx.toNat (bins.get ⟨idx.toNat, h.2⟩ + 1))
    else .error .outOfBounds

/-- `Gnuplot::histogram`: asserts `nbins > 0`, silently ignores an empty
vector, asserts 2D mode when series are already pending, fills the bins,
and appends one row `(min + binwidth * (i + 0.5), bins[i])` per bin with
column descriptor `"1:2"`, clearing the 3D flag. -/
def histogram (values : List ℚ) (nbins : Nat) (label : String)
    (style : LineStyle) (s : Gnuplot) : Except CppError Gnuplot :=
  if nbins = 0 then .error .assertFail
  else if values = [] then .ok s
  else if s.series ≠ [] ∧ s.is_3dplot then .error .assertFail
  else
    let mn := listMin values
    let binwidth := binWidthOf values nbins
    match fillBins mn binwidth nbins values (List.replicate nbins 0) with
    | .error e => .error e
    | .ok bins =>
      .ok { s with
            series := s.series ++
              [⟨(List.range nbins).map (fun (i : Nat) =>
                  [mn + binwidth * ((i : ℚ) + 1/2), (bins.getD i 0 : ℚ)]),
                style, label, "1:2"⟩]
            is_3dplot := false }

/-- Serialization of one data row, as the row loops of `_plot` and
`histogram` print it: each value followed by a space, then a newline. -/
def rowToString (row : List ℚ) : String :=
  row.foldl (fun acc x => acc ++ ratToStr x ++ " ") "" ++ "\n"

/-- Serialization of a whole series body (`data_string` in the source). -/
def dataToString (rows : List (List ℚ)) : String :=
  rows.foldl (fun acc row => acc ++ rowToString row) ""

/-- The content `show` writes for one render: the inline data blocks in
series order, whether the composite command is `splot` or `plot`, the range
descriptors it interpolates, and the per-series clause data (column
descriptor, style keyword, quote-escaped title). -/
structure PlotScript where
  blocks : List (List (List ℚ))
  command3d : Bool
  ranges : List String
  clauses : List (String × String × String)
deriving DecidableEq, Repr

/-- Result of a `show` call: the returned `bool`, the state afterwards, and
what was written to the pipe (`none` when nothing was sent). -/
structure ShowResult where
  result : Bool
  state : Gnuplot
  sent : Option PlotScript
deriving DecidableEq, Repr

/-- `Gnuplot::reset`: clear the series, restore the X and Y ranges through
their setters, clear the 3D flag.  (Z range, connection and file list are
untouched.) -/
def reset (s : Gnuplot) : Gnuplot :=
  { set_yrange none none (set_xrange none none { s with series := [] }) with
    is_3dplot := false }

/-- `Gnuplot::show(call_reset)`: succeed doing nothing when no series are
pending; otherwise assemble the script, send it (which fails exactly when
the connection is down, sending nothing), and on a successful send with
`call_reset` perform `reset`. -/
def show_cmd (call_reset : Bool) (s : Gnuplot) : ShowResult :=
  if s.series = [] then ⟨true, s, none⟩
  else
    let script : PlotScript :=
      { blocks := s.series.map (fun ser => ser.data)
        command3d := s.is_3dplot
        ranges := if s.is_3dplot then [s.xrange, s.yrange, s.zrange]
          else [s.xrange, s.yrange]
        clauses := s.series.map (fun ser =>
          (ser.column_range, style_to_str ser.line_style, escape_quotes ser.title)) }
    if s.connection then
      ⟨true, if call_reset then reset s else s, some script⟩
    else ⟨false, s, none⟩

/-- The files the destructor removes: exactly the `files_to_delete` list. -/
def teardownDeletes (s : Gnuplot) : List String :=
  s.files_to_delete

/-- The states a `Gnuplot` object can be in: freshly constructed, or the
successful result of any state-mutating operation on a reachable state. -/
inductive Reachable : Gnuplot → Prop
  | init (c : Bool) : Reachable (initGnuplot c)
  | setx {s} (mn mx : Option ℚ) : Reachable s → Reachable (set_xrange mn mx s)
  | sety {s} (mn mx : Option ℚ) : Reachable s → Reachable (set_yrange mn mx s)
  | setz {s} (mn mx : Option ℚ) : Reachable s → Reachable (set_zrange mn mx s)
  | plotStep {s s'} (label : String) (style : LineStyle) (d : Bool)
      (cols : List (List ℚ)) :
      Reachable s → _plot label style d cols s = .ok s' → Reachable s'
  | histStep {s s'} (values : List ℚ) (nbins : Nat) (label : String)
      (style : LineStyle) :
      Reachable s → histogram values nbins label style s = .ok s' → Reachable s'
  | showStep {s} (b : Bool) : Reachable s → Reachable (show_cmd b s).state
  | resetStep {s} : Reachable s → Reachable (reset s)

/-- Modelled from the spec: re-parsing text escaped for a single-quoted
argument by splitting on quotes, where a doubled quote stands for one
literal quote (the inverse reading the spec assigns to the escaping rule;
the source has no such function). -/
def spec_unquote : List Char → List Char
  | [] => []
  | [c] => [c]
  | c :: c2 :: rest =>
    if c = quoteChar ∧ c2 = quoteChar then quoteChar :: spec_unquote rest
    else c :: spec_unquote (c2 :: rest)

/-- A session that already holds one 3D series (as left by a successful
`plot3d` call on a fresh session). -/
def session3d : Gnuplot :=
  { connection := true
    series := [⟨[[1, 1, 1]], .LINES, "", "1:2:3"⟩]
    files_to_delete := []
    xrange := "[]"
    yrange := "[]"
    zrange := "[]"
    is_3dplot := true }

/-- A live 2D session with one pending series and a non-default Z range. -/
def session2d : Gnuplot :=
  { connection := true
    series := [⟨[[1, 2]], .LINES, "", "1:2"⟩]
    files_to_delete := []
    xrange := "[0:6]"
    yrange := "[]"
    zrange := "[-1:1]"
    is_3dplot := false }

/-- The same pending series on a session whose `popen` failed. -/
def deadSession : Gnuplot :=
  { session2d with connection := false }

/-! ### Auxiliary lemmas -/

theorem natToDigitsAux_mem (fuel : Nat) :
    ∀ n, ∀ c ∈ natToDigitsAux fuel n, ∃ m, m < 10 ∧ c = Char.ofNat (48 + m) := by
  induction fuel with
  | zero => intro n c hc; cases hc
  | succ f ih =>
    intro n c hc
    unfold natToDigitsAux at hc
    split at hc
    · rcases List.mem_singleton.1 hc with rfl
      exact ⟨n, by omega, rfl⟩
    · rcases List.mem_append.1 hc with hc | hc
      · exact ih _ c hc
      · rcases List.mem_singleton.1 hc with rfl
        exact ⟨n % 10, Nat.mod_lt _ (by omega), rfl⟩

theorem natToDigits_mem (n : Nat) :
    ∀ c ∈ natToDigits n, ∃ m, m < 10 ∧ c = Char.ofNat (48 + m) :=
  natToDigitsAux_mem (n + 1) n

theorem digit_ne_star {m : Nat} (hm : m < 10) : Char.ofNat (48 + m) ≠ starChar := by
  interval_cases m <;> decide

theorem natToDigits_ne_star (n : Nat) : ∀ c ∈ natToDigits n, c ≠ starChar := by
  intro c hc
  obtain ⟨m, hm, rfl⟩ := natToDigits_mem n c hc
  exact digit_ne_star hm

theorem ratToStr_star_free (q : ℚ) : starChar ∉ (ratToStr q).data := by
  unfold ratToStr
  intro hmem
  rw [String.data_append, String.data_append] at hmem
  rcases List.mem_append.1 hmem with h | h
  · rcases List.mem_append.1 h with h | h
    · split at h
      · exact absurd h (by decide)
      · exact absurd h (by decide)
    · exact natToDigits_ne_star _ _ h rfl
  · split at h
    · exact absurd h (by decide)
    · rw [String.data_append] at h
      rcases List.mem_append.1 h with h | h
      · exact absurd h (by decide)
      · exact natToDigits_ne_star _ _ h rfl

theorem getRow_error_eq {cols : List (List ℚ)} {i : Nat} {e : CppError} :
    getRow cols i = .error e → e = .outOfBounds := by
  induction cols with
  | nil => intro h; simp [getRow] at h
  | cons c cs ih =>
    intro h
    unfold getRow at h
    cases hg : c.get? i with
    | none => rw [hg] at h; cases h; rfl
    | some x =>
      rw [hg] at h
      cases hr : getRow cs i with
      | error e2 => rw [hr] at h; cases h; exact ih hr
      | ok xs => rw [hr] at h; cases h

theorem buildRowsAux_error_eq {cols : List (List ℚ)} {idxs : List Nat} {e : CppError} :
    buildRowsAux cols idxs = .error e → e = .outOfBounds := by
  induction idxs with
  | nil => intro h; simp [buildRowsAux] at h
  | cons i is ih =>
    intro h
    unfold buildRowsAux at h
    cases hg : getRow cols i with
    | error e2 => rw [hg] at h; cases h; exact getRow_error_eq hg
    | ok row =>
      rw [hg] at h
      cases hr : buildRowsAux cols is with
      | error e2 => rw [hr] at h; cases h; exact ih hr
      | ok rows => rw [hr] at h; cases h

theorem fillBins_error_eq {mn w : ℚ} {nbins : Nat} {values : List ℚ}
    {bins : List Nat} {e : CppError} :
    fillBins mn w nbins values bins = .error e → e = .outOfBounds := by
  induction values generalizing bins with
  | nil => intro h; simp [fillBins] at h
  | cons v rest ih =>
    intro h
    unfold fillBins at h
    simp only [] at h
    split at h
    · exact ih h
    · cases h; rfl

theorem getRow_ok {cols : List (List ℚ)} {i : Nat} (h : ∀ c ∈ cols, i < c.length) :
    getRow cols i = .ok (cols.map (fun c => c.getD i 0)) := by
  induction cols with
  | nil => rfl
  | cons c cs ih =>
    have hc : i < c.length := h c (by simp)
    unfold getRow
    rw [List.get?_eq_get hc, ih (fun d hd => h d (by simp [hd]))]
    simp [List.getD_eq_getElem?_getD, List.getElem?_eq_getElem hc, List.get_eq_getElem]

theorem getRow_ok_bound {cols : List (List ℚ)} {i : Nat} {row : List ℚ} :
    getRow cols i = .ok row → ∀ c ∈ cols, i < c.length := by
  induction cols generalizing row with
  | nil => intro _ c hc; cases hc
  | cons c cs ih =>
    intro h d hd
    unfold getRow at h
    cases hg : c.get? i with
    | none => rw [hg] at h; cases h
    | some x =>
      rw [hg] at h
      cases hr : getRow cs i with
      | error e => rw [hr] at h; cases h
      | ok xs =>
        rw [hr] at h
        rcases List.mem_cons.1 hd with rfl | hd2
        · rcases List.get?_eq_some.1 hg with ⟨hlt, _⟩
          exact hlt
        · exact ih hr d hd2

theorem buildRowsAux_ok {cols : List (List ℚ)} {idxs : List Nat}
    (h : ∀ i ∈ idxs, ∀ c ∈ cols, i < c.length) :
    buildRowsAux cols idxs = .ok (idxs.map (fun i => cols.map (fun c => c.getD i 0))) := by
  induction idxs with
  | nil => rfl
  | cons i is ih =>
    unfold buildRowsAux
    rw [getRow_ok (h i (by simp)), ih (fun j hj => h j (by simp [hj]))]
    rfl

theorem buildRows_ok {cols : List (List ℚ)} {n : Nat} (h : ∀ c ∈ cols, n ≤ c.length) :
    buildRows cols n = .ok (rowsOf cols n) := by
  unfold buildRows rowsOf
  exact buildRowsAux_ok (fun i hi c hc => by
    have := h c hc
    have := List.mem_range.1 hi
    omega)

theorem buildRowsAux_ok_bound {cols : List (List ℚ)} {idxs : List Nat}
    {rows : List (List ℚ)} :
    buildRowsAux cols idxs = .ok rows → ∀ i ∈ idxs, ∀ c ∈ cols, i < c.length := by
  induction idxs generalizing rows with
  | nil => intro _ i hi; cases hi
  | cons j js ih =>
    intro h i hi c hc
    unfold buildRowsAux at h
    cases hg : getRow cols j with
    | error e => rw [hg] at h; cases h
    | ok row =>
      rw [hg] at h
      cases hr : buildRowsAux cols js with
      | error e => rw [hr] at h; cases h
      | ok rows2 =>
        rcases List.mem_cons.1 hi with rfl | hi2
        · exact getRow_ok_bound hg c hc
        · exact ih hr i hi2 c hc

theorem buildRows_ok_bound {cols : List (List ℚ)} {n : Nat} {rows : List (List ℚ)} :
    buildRows cols n = .ok rows → ∀ c ∈ cols, n ≤ c.length := by
  intro h c hc
  rcases Nat.eq_zero_or_pos n with rfl | hn
  · omega
  · have := buildRowsAux_ok_bound h (n - 1) (List.mem_range.2 (by omega)) c hc
    omega

theorem rowsOf_length (cols : List (List ℚ)) (n : Nat) : (rowsOf cols n).length = n := by
  simp [rowsOf]

theorem rowsOf_row_length (cols : List (List ℚ)) (n : Nat) :
    ∀ row ∈ rowsOf cols n, row.length = cols.length := by
  intro row hrow
  rcases List.mem_map.1 hrow with ⟨i, _, rfl⟩
  simp

theorem rowsOf_single (y : List ℚ) :
    rowsOf [y] y.length = y.map (fun t => [t]) := by
  apply List.ext_getElem
  · simp [rowsOf]
  · intro i h1 h2
    simp only [rowsOf, List.getElem_map, List.getElem_range, List.map_cons, List.map_nil]
    congr 1
    simp [List.getD_eq_getElem?_getD, List.getElem?_eq_getElem (by simpa [rowsOf] using h1)]

/-! ### Claim theorems -/

/-- Claim C9: calling `show` (render) when the pending series list is empty
returns `true` and sends nothing to the subprocess stream, leaving the
session state unchanged. -/
theorem show_empty_noop (b : Bool) (s : Gnuplot) (h : s.series = []) :
    show_cmd b s = ⟨true, s, none⟩ := by
  unfold show_cmd
  rw [if_pos h]

/-- Witness for C9 at a freshly constructed session. -/
theorem show_empty_noop_witness :
    show_cmd true (initGnuplot true) = ⟨true, initGnuplot true, none⟩ :=
  show_empty_noop true (initGnuplot true) (by decide)

/-- Claim C7: `reset` (and therefore a successful `show` with
`call_reset = true`) empties the pending series list, restores the X and Y
range descriptors to `"[]"`, clears the 3D flag, and leaves the Z range
descriptor (as well as the connection and the file list) unchanged; when
the send fails, `show` performs no reset and returns the state untouched. -/
theorem render_reset_spec (s : Gnuplot) :
    ((reset s).series = [] ∧ (reset s).xrange = "[]" ∧ (reset s).yrange = "[]"
      ∧ (reset s).is_3dplot = false ∧ (reset s).zrange = s.zrange
      ∧ (reset s).connection = s.connection
      ∧ (reset s).files_to_delete = s.files_to_delete)
    ∧ (s.series ≠ [] → s.connection = true →
        (show_cmd true s).result = true ∧ (show_cmd true s).state = reset s)
    ∧ (s.series ≠ [] → s.connection = false →
        show_cmd true s = ⟨false, s, none⟩) := by
  refine ⟨⟨rfl, rfl, rfl, rfl, rfl, rfl, rfl⟩, ?_, ?_⟩
  · intro hs hc
    unfold show_cmd
    rw [if_neg hs]
    simp only [hc, if_true]
    exact ⟨trivial, trivial⟩
  · intro hs hc
    unfold show_cmd
    rw [if_neg hs]
    simp only [hc]
    rfl

/-- Witness for C7: a live session with one pending series and a bespoke Z
range is reset by a successful render, and the dead copy of the same
session is left untouched by a failed one. -/
theorem render_reset_spec_witness :
    ((show_cmd true session2d).result = true
      ∧ (show_cmd true session2d).state = reset session2d)
    ∧ show_cmd true deadSession = ⟨false, deadSession, none⟩ :=
  ⟨(render_reset_spec session2d).2.1 (by decide) (by decide),
   (render_reset_spec deadSession).2.2 (by decide) (by decide)⟩

/-- Claim C4: an add-series call on a session whose pending list is
non-empty and whose current 2D/3D mode differs from the call's
dimensionality fails the mode assertion; with an empty pending list the
mode assertion cannot fire (for `histogram`, granted its own `nbins`
assertion passes); a successful non-empty add fixes the session mode to the
dimensionality of the call; and `histogram`, a 2D add, fails the assertion
exactly when series are pending in 3D mode. -/
theorem mode_enforcement (s : Gnuplot) (label : String) (style : LineStyle)
    (d : Bool) (v : List ℚ) (rest : List (List ℚ)) (values : List ℚ) (nbins : Nat) :
    (v ≠ [] → s.series ≠ [] → s.is_3dplot ≠ d →
      _plot label style d (v :: rest) s = .error .assertFail)
    ∧ (s.series = [] → _plot label style d (v :: rest) s ≠ .error .assertFail)
    ∧ (v ≠ [] → ∀ s', _plot label style d (v :: rest) s = .ok s' → s'.is_3dplot = d)
    ∧ (values ≠ [] → nbins ≠ 0 → s.series ≠ [] → s.is_3dplot = true →
      histogram values nbins label style s = .error .assertFail)
    ∧ (nbins ≠ 0 → s.series = [] →
      histogram values nbins label style s ≠ .error .assertFail) := by
  refine ⟨?_, ?_, ?_, ?_, ?_⟩
  · intro hv hs hd
    simp only [_plot]
    rw [if_neg hv, if_pos ⟨hs, hd⟩]
  · intro hs hcontra
    simp only [_plot] at hcontra
    by_cases hv : v = []
    · rw [if_pos hv] at hcontra
      simp at hcontra
    · rw [if_neg hv, if_neg (by simp [hs])] at hcontra
      cases hb : buildRows (v :: rest) v.length with
      | error e =>
        rw [hb] at hcontra
        simp only [] at hcontra
        cases hcontra
        cases buildRowsAux_error_eq hb
      | ok rows =>
        rw [hb] at hcontra
        simp at hcontra
  · intro hv s' h
    simp only [_plot] at h
    rw [if_neg hv] at h
    by_cases hm : s.series ≠ [] ∧ s.is_3dplot ≠ d
    · rw [if_pos hm] at h
      cases h
    · rw [if_neg hm] at h
      cases hb : buildRows (v :: rest) v.length with
      | error e => rw [hb] at h; cases h
      | ok rows =>
        rw [hb] at h
        cases h
        rfl
  · intro hval hn hs h3
    unfold histogram
    rw [if_neg hn, if_neg hval, if_pos ⟨hs, h3⟩]
  · intro hn hs hcontra
    unfold histogram at hcontra
    rw [if_neg hn] at hcontra
    by_cases hval : values = []
    · rw [if_pos hval] at hcontra
      simp at hcontra
    · rw [if_neg hval, if_neg (by simp [hs])] at hcontra
      simp only [] at hcontra
      cases hb : fillBins (listMin values) (binWidthOf values nbins) nbins values
        (List.replicate nbins 0) with
      | error e =>
        rw [hb] at hcontra
        cases hcontra
        cases fillBins_error_eq hb
      | ok bins =>
        rw [hb] at hcontra
        simp at hcontra

/-- Witness for C4: a 2D add and a histogram are both rejected on a session
holding a 3D series. -/
theorem mode_enforcement_witness :
    _plot "" .LINES false [[2]] session3d = .error .assertFail
    ∧ histogram [2] 1 "" .BOXES session3d = .error .assertFail :=
  ⟨(mode_enforcement session3d "" .LINES false [2] [] [2] 1).1
      (by decide) (by decide) (by decide),
   (mode_enforcement session3d "" .BOXES false [2] [] [2] 1).2.2.2.1
      (by decide) (by decide) (by decide) (by decide)⟩

/-- Claim C2 counterexample: the single-vector `plot` appends a series whose
column descriptor is `"1"`, not `"1:2"`, and whose data block has one
column per row — no index column is synthesized into the block. -/
theorem plot_single_counterexample :
    plot1 [3] "" .LINES (initGnuplot true) =
      .ok { initGnuplot true with series := [⟨[[3]], .LINES, "", "1"⟩] }
    ∧ "1" ≠ "1:2" := by
  constructor
  · decide
  · decide

/-- Claim C2 (amended): for every non-empty `y`, the single-vector `plot`
appends one series whose column descriptor is `"1"` and whose body has one
row per element of `y`, each row holding the single value (the index column
is supplied implicitly by Gnuplot, not synthesized into the block). -/
theorem plot_single_amended (y : List ℚ) (label : String) (style : LineStyle)
    (s : Gnuplot) (hy : y ≠ []) (hmode : s.series = [] ∨ s.is_3dplot = false) :
    plot1 y label style s =
      .ok { s with
            series := s.series ++ [⟨y.map (fun t => [t]), style, label, "1"⟩]
            is_3dplot := false } := by
  unfold plot1
  simp only [_plot]
  rw [if_neg hy, if_neg (by rcases hmode with h | h <;> simp [h]),
    buildRows_ok (by simp), rowsOf_single]
  simp only [List.length_cons, List.length_nil]
  rw [show fmtFrom 1 (0 + 1) = "1" from by decide]

/-- Witness for C2 (amended) on `y = [7, 8]`. -/
theorem plot_single_amended_witness :
    plot1 [7, 8] "x" .POINTS (initGnuplot true) =
      .ok { initGnuplot true with
            series := (initGnuplot true).series ++
              [⟨[(7:ℚ), 8].map (fun t => [t]), .POINTS, "x", "1"⟩]
            is_3dplot := false } :=
  plot_single_amended [7, 8] "x" .POINTS (initGnuplot true) (by decide)
    (Or.inl (by decide))

/-- Claim C3 counterexample: `plot(x, y)` with a companion longer than the
primary silently appends a series (truncated to the primary's length)
instead of rejecting or reporting the length mismatch. -/
theorem length_mismatch_counterexample :
    plot2 [5] [1, 2] "" .LINES (initGnuplot true) =
      .ok { initGnuplot true with series := [⟨[[5, 1]], .LINES, "", "1:2"⟩] } := by
  decide

/-- Claim C3 (amended): no add-series variant validates companion lengths.
When every companion is at least as long as the primary — including when
strictly longer — a series is silently produced from the first
`v.length` elements of each sequence; when some companion is shorter than
the primary, the row loop indexes past its end (undefined behavior in the
C++, modelled as an out-of-bounds failure), which is not a reported
length-mismatch error.  All variants of §4.4 delegate to `_plot`. -/
theorem length_mismatch_amended (label : String) (style : LineStyle) (d : Bool)
    (v : List ℚ) (rest : List (List ℚ)) (s : Gnuplot)
    (hv : v ≠ []) (hmode : s.series = [] ∨ s.is_3dplot = d) :
    ((∀ c ∈ rest, v.length ≤ c.length) →
      _plot label style d (v :: rest) s =
        .ok { s with
              series := s.series ++
                [⟨rowsOf (v :: rest) v.length, style, label,
                  fmtFrom 1 (v :: rest).length⟩]
              is_3dplot := d })
    ∧ ((∃ c ∈ rest, c.length < v.length) →
      _plot label style d (v :: rest) s = .error .outOfBounds) := by
  have hguard : ¬(s.series ≠ [] ∧ s.is_3dplot ≠ d) := by
    rcases hmode with h | h <;> simp [h]
  constructor
  · intro hlen
    simp only [_plot]
    rw [if_neg hv, if_neg hguard,
      buildRows_ok (by
        intro c hc
        rcases List.mem_cons.1 hc with rfl | hc2
        · exact Nat.le_refl _
        · exact hlen c hc2)]
  · rintro ⟨c, hc, hlen⟩
    simp only [_plot]
    rw [if_neg hv, if_neg hguard]
    cases hb : buildRows (v :: rest) v.length with
    | error e =>
      cases buildRowsAux_error_eq hb
      rfl
    | ok rows =>
      have := buildRows_ok_bound hb c (List.mem_cons_of_mem _ hc)
      omega

/-- Witness for C3 (amended): a shorter companion makes the row loop run
past its end. -/
theorem length_mismatch_amended_witness :
    _plot "" .LINES false [[1, 2], [3]] (initGnuplot true) = .error .outOfBounds :=
  (length_mismatch_amended "" .LINES false [1, 2] [[3]] (initGnuplot true)
    (by decide) (Or.inl (by decide))).2 (by decide)

/-- Claim C8: one add-series call with non-empty equal-length sequences on a
fresh live session, followed by a render, sends exactly one inline data
block; the block has one row per input element and each row has one column
per zipped sequence. -/
theorem single_series_block_spec (label : String) (style : LineStyle)
    (d b : Bool) (v : List ℚ) (rest : List (List ℚ)) (s : Gnuplot)
    (hv : v ≠ []) (hs : s.series = []) (hc : s.connection = true)
    (hlen : ∀ c ∈ rest, c.length = v.length) :
    _plot label style d (v :: rest) s =
      .ok { s with
            series := [⟨rowsOf (v :: rest) v.length, style, label,
              fmtFrom 1 (v :: rest).length⟩]
            is_3dplot := d }
    ∧ ((show_cmd b { s with
            series := [⟨rowsOf (v :: rest) v.length, style, label,
              fmtFrom 1 (v :: rest).length⟩]
            is_3dplot := d }).sent).map (fun sc => sc.blocks)
        = some [rowsOf (v :: rest) v.length]
    ∧ (rowsOf (v :: rest) v.length).length = v.length
    ∧ (∀ row ∈ rowsOf (v :: rest) v.length, row.length = (v :: rest).length) := by
  refine ⟨?_, ?_, rowsOf_length _ _, rowsOf_row_length _ _⟩
  · have h1 := (length_mismatch_amended label style d v rest s hv (Or.inl hs)).1
      (fun c hcm => Nat.le_of_eq (hlen c hcm).symm)
    rw [h1, hs]
    rfl
  · unfold show_cmd
    rw [if_neg (by simp)]
    simp only [hc]
    rfl

/-- Witness for C8 on `x = [1,2]`, `y = [3,4]`. -/
theorem single_series_block_witness :
    ((show_cmd true { initGnuplot true with
        series := [⟨rowsOf [[1, 2], [3, 4]] 2, .LINES, "", fmtFrom 1 2⟩]
        is_3dplot := false }).sent).map (fun sc => sc.blocks)
      = some [rowsOf [[1, 2], [3, 4]] 2] :=
  (single_series_block_spec "" .LINES false true [1, 2] [[3, 4]] (initGnuplot true)
    (by decide) (by decide) (by decide) (by decide)).2.1

/-- Claim C5: the stored range descriptor is `"[]"` when both bounds are
automatic; `"[low:high]"` with `*` for the one automatic bound (so exactly
one literal `*` in the string) when exactly one is automatic; and
`"[low:high]"` with no `*` when both are fixed — and each axis setter
stores exactly this descriptor. -/
theorem range_descriptor_format (a b : ℚ) (mn mx : Option ℚ) (s : Gnuplot) :
    format_range none none = "[]"
    ∧ format_range (some a) none = "[" ++ ratToStr a ++ ":" ++ "*" ++ "]"
    ∧ (format_range (some a) none).data.count starChar = 1
    ∧ format_range none (some b) = "[" ++ "*" ++ ":" ++ ratToStr b ++ "]"
    ∧ (format_range none (some b)).data.count starChar = 1
    ∧ format_range (some a) (some b) = "[" ++ ratToStr a ++ ":" ++ ratToStr b ++ "]"
    ∧ (format_range (some a) (some b)).data.count starChar = 0
    ∧ (set_xrange mn mx s).xrange = format_range mn mx
    ∧ (set_yrange mn mx s).yrange = format_range mn mx
    ∧ (set_zrange mn mx s).zrange = format_range mn mx := by
  have hca : (ratToStr a).data.count starChar = 0 :=
    List.count_eq_zero.2 (ratToStr_star_free a)
  have hcb : (ratToStr b).data.count starChar = 0 :=
    List.count_eq_zero.2 (ratToStr_star_free b)
  refine ⟨rfl, rfl, ?_, rfl, ?_, rfl, ?_, rfl, rfl, rfl⟩
  · rw [show format_range (some a) none = "[" ++ ratToStr a ++ ":" ++ "*" ++ "]" from rfl,
      String.data_append, String.data_append, String.data_append, String.data_append]
    simp only [List.count_append, hca]
    decide
  · rw [show format_range none (some b) = "[" ++ "*" ++ ":" ++ ratToStr b ++ "]" from rfl,
      String.data_append, String.data_append, String.data_append, String.data_append]
    simp only [List.count_append, hcb]
    decide
  · rw [show format_range (some a) (some b) = "[" ++ ratToStr a ++ ":" ++ ratToStr b ++ "]"
        from rfl,
      String.data_append, String.data_append, String.data_append, String.data_append]
    simp only [List.count_append, hca, hcb]
    decide

theorem escList_no_quotes {l : List Char} (h : ∀ c ∈ l, c ≠ quoteChar) :
    escList l = l := by
  induction l with
  | nil => rfl
  | cons c cs ih =>
    unfold escList
    rw [if_neg (h c (by simp)), ih (fun d hd => h d (by simp [hd]))]
    rfl

theorem escList_eq_nil {l : List Char} (h : escList l = []) : l = [] := by
  cases l with
  | nil => rfl
  | cons c cs =>
    unfold escList at h
    split at h <;> simp at h

theorem spec_unquote_escList (l : List Char) : spec_unquote (escList l) = l := by
  induction l with
  | nil => rfl
  | cons c cs ih =>
    by_cases hc : c = quoteChar
    · subst hc
      unfold escList
      rw [if_pos rfl]
      show spec_unquote (quoteChar :: quoteChar :: escList cs) = _
      unfold spec_unquote
      rw [if_pos ⟨rfl, rfl⟩, ih]
    · unfold escList
      rw [if_neg hc]
      cases he : escList cs with
      | nil =>
        rw [escList_eq_nil he]
        rfl
      | cons d ds =>
        show spec_unquote (c :: d :: ds) = _
        unfold spec_unquote
        rw [if_neg (by rintro ⟨rfl, -⟩; exact hc rfl), ← he, ih]

theorem escList_count (l : List Char) :
    (escList l).count quoteChar = 2 * l.count quoteChar := by
  induction l with
  | nil => rfl
  | cons c cs ih =>
    unfold escList
    by_cases hc : c = quoteChar
    · subst hc
      rw [if_pos rfl, List.count_append, ih]
      simp [List.count_cons]
      omega
    · rw [if_neg hc, List.count_append, ih]
      simp [List.count_cons, hc]

theorem escList_filter (l : List Char) :
    (escList l).filter (fun c => c ≠ quoteChar) = l.filter (fun c => c ≠ quoteChar) := by
  induction l with
  | nil => rfl
  | cons c cs ih =>
    unfold escList
    by_cases hc : c = quoteChar
    · subst hc
      rw [if_pos rfl, List.filter_append, ih]
      simp [List.filter_cons]
    · rw [if_neg hc, List.filter_append, ih]
      simp [List.filter_cons, hc]

/-- Claim C6: `escape_quotes` doubles each literal single quote and leaves
every other character unchanged in order (a quote-free string is returned
verbatim, the quote count doubles, the non-quote characters are untouched),
and splitting the escaped output on non-doubled quotes recovers the
original text. -/
theorem escape_quotes_spec (s : String) :
    ((∀ c ∈ s.data, c ≠ quoteChar) → escape_quotes s = s)
    ∧ spec_unquote (escape_quotes s).data = s.data
    ∧ (escape_quotes s).data.count quoteChar = 2 * s.data.count quoteChar
    ∧ (escape_quotes s).data.filter (fun c => c ≠ quoteChar)
        = s.data.filter (fun c => c ≠ quoteChar) := by
  refine ⟨?_, spec_unquote_escList s.data, escList_count s.data, escList_filter s.data⟩
  intro h
  show String.mk (escList s.data) = s
  rw [escList_no_quotes h]

/-- Witness for C6: a quote-free string passes through unchanged, and the
spec's split-on-quotes re-parse recovers a string containing a quote. -/
theorem escape_quotes_spec_witness :
    escape_quotes (String.mk ['a', 'b']) = String.mk ['a', 'b']
    ∧ spec_unquote (escape_quotes (String.mk ['i', 't', quoteChar, 's'])).data
        = ['i', 't', quoteChar, 's'] :=
  ⟨(escape_quotes_spec (String.mk ['a', 'b'])).1 (by decide),
   (escape_quotes_spec (String.mk ['i', 't', quoteChar, 's'])).2.1⟩

theorem _plot_files {label : String} {style : LineStyle} {d : Bool}
    {cols : List (List ℚ)} {s s' : Gnuplot} (h : _plot label style d cols s = .ok s') :
    s'.files_to_delete = s.files_to_delete := by
  cases cols with
  | nil => cases h; rfl
  | cons v rest =>
    simp only [_plot] at h
    by_cases hv : v = []
    · rw [if_pos hv] at h; cases h; rfl
    · rw [if_neg hv] at h
      by_cases hm : s.series ≠ [] ∧ s.is_3dplot ≠ d
      · rw [if_pos hm] at h; cases h
      · rw [if_neg hm] at h
        cases hb : buildRows (v :: rest) v.length with
        | error e => rw [hb] at h; cases h
        | ok rows => rw [hb] at h; cases h; rfl

theorem histogram_files {values : List ℚ} {nbins : Nat} {label : String}
    {style : LineStyle} {s s' : Gnuplot}
    (h : histogram values nbins label style s = .ok s') :
    s'.files_to_delete = s.files_to_delete := by
  unfold histogram at h
  by_cases hn : nbins = 0
  · rw [if_pos hn] at h; cases h
  · rw [if_neg hn] at h
    by_cases hval : values = []
    · rw [if_pos hval] at h; cases h; rfl
    · rw [if_neg hval] at h
      by_cases hm : s.series ≠ [] ∧ s.is_3dplot
      · rw [if_pos hm] at h; cases h
      · rw [if_neg hm] at h
        simp only [] at h
        cases hb : fillBins (listMin values) (binWidthOf values nbins) nbins values
          (List.replicate nbins 0) with
        | error e => rw [hb] at h; cases h
        | ok bins => rw [hb] at h; cases h; rfl

theorem show_cmd_files (b : Bool) (s : Gnuplot) :
    (show_cmd b s).state.files_to_delete = s.files_to_delete := by
  unfold show_cmd
  by_cases hs : s.series = []
  · rw [if_pos hs]
  · rw [if_neg hs]
    simp only []
    by_cases hc : s.connection = true
    · simp only [hc, if_true]
      cases b
      · rfl
      · rfl
    · simp only [Bool.not_eq_true] at hc
      simp only [hc]
      rfl

/-- Claim C10: the temporary-file list is empty at construction and no
operation ever appends to it (all series data is sent inline), so every
reachable session state has an empty `files_to_delete` and teardown deletes
no files. -/
theorem files_to_delete_invariant (s : Gnuplot) (h : Reachable s) :
    s.files_to_delete = [] ∧ teardownDeletes s = [] := by
  have key : s.files_to_delete = [] := by
    induction h with
    | init c => rfl
    | setx mn mx _ ih => exact ih
    | sety mn mx _ ih => exact ih
    | setz mn mx _ ih => exact ih
    | plotStep label style d cols _ hp ih => rw [_plot_files hp]; exact ih
    | histStep values nbins label style _ hp ih => rw [histogram_files hp]; exact ih
    | showStep b _ ih => rw [show_cmd_files]; exact ih
    | resetStep _ ih => exact ih
  exact ⟨key, key⟩

/-- Witness for C10 at a freshly constructed session. -/
theorem files_to_delete_invariant_witness :
    (initGnuplot true).files_to_delete = [] ∧ teardownDeletes (initGnuplot true) = [] :=
  files_to_delete_invariant (initGnuplot true) (Reachable.init true)

theorem foldl_min_le_init (a : ℚ) (xs : List ℚ) : xs.foldl min a ≤ a := by
  induction xs generalizing a with
  | nil => exact le_refl a
  | cons x xs ih => exact le_trans (ih (min a x)) (min_le_left a x)

theorem foldl_min_le_mem {x : ℚ} {xs : List ℚ} (h : x ∈ xs) (a : ℚ) :
    xs.foldl min a ≤ x := by
  induction xs generalizing a with
  | nil => cases h
  | cons y ys ih =>
    rcases List.mem_cons.1 h with rfl | h2
    · exact le_trans (foldl_min_le_init (min a x) ys) (min_le_right a x)
    · exact ih h2 (min a y)

theorem init_le_foldl_max (a : ℚ) (xs : List ℚ) : a ≤ xs.foldl max a := by
  induction xs generalizing a with
  | nil => exact le_refl a
  | cons x xs ih => exact le_trans (le_max_left a x) (ih (max a x))

theorem mem_le_foldl_max {x : ℚ} {xs : List ℚ} (h : x ∈ xs) (a : ℚ) :
    x ≤ xs.foldl max a := by
  induction xs generalizing a with
  | nil => cases h
  | cons y ys ih =>
    rcases List.mem_cons.1 h with rfl | h2
    · exact le_trans (le_max_right a x) (init_le_foldl_max (max a x) ys)
    · exact ih h2 (max a y)

theorem listMin_le {l : List ℚ} {x : ℚ} (h : x ∈ l) : listMin l ≤ x := by
  cases l with
  | nil => cases h
  | cons y ys =>
    rcases List.mem_cons.1 h with rfl | h2
    · exact foldl_min_le_init x ys
    · exact foldl_min_le_mem h2 y

theorem le_listMax {l : List ℚ} {x : ℚ} (h : x ∈ l) : x ≤ listMax l := by
  cases l with
  | nil => cases h
  | cons y ys =>
    rcases List.mem_cons.1 h with rfl | h2
    · exact init_le_foldl_max x ys
    · exact mem_le_foldl_max h2 y

theorem listMin_le_listMax {l : List ℚ} (h : l ≠ []) : listMin l ≤ listMax l := by
  cases l with
  | nil => exact absurd rfl h
  | cons y ys =>
    exact le_trans (listMin_le (List.mem_cons_self y ys)) (le_listMax (List.mem_cons_self y ys))

theorem binIndexOf_range {mn mx w : ℚ} {nbins : Nat} {v : ℚ}
    (hlt : mn < mx) (hn : nbins ≠ 0) (hw : w = (mx - mn) / (nbins : ℚ))
    (hv1 : mn ≤ v) (hv2 : v ≤ mx) :
    0 ≤ binIndexOf mn w nbins v ∧ (binIndexOf mn w nbins v).toNat < nbins
    ∧ binIndexOf mn w nbins v = min ⌊(v - mn) / w⌋ ((nbins : Int) - 1) := by
  have hnq : (0 : ℚ) < (nbins : ℚ) := by exact_mod_cast Nat.pos_of_ne_zero hn
  have hwpos : 0 < w := by rw [hw]; exact div_pos (by linarith) hnq
  have hq0 : 0 ≤ (v - mn) / w := div_nonneg (by linarith) hwpos.le
  have hqn : (v - mn) / w ≤ (nbins : ℚ) := by
    have hmxmn : mx - mn ≠ 0 := by linarith
    have hnne : (nbins : ℚ) ≠ 0 := ne_of_gt hnq
    have h1 : (v - mn) / w ≤ (mx - mn) / w := by gcongr
    have h2 : (mx - mn) / w = (nbins : ℚ) := by rw [hw]; field_simp
    linarith
  have hfl0 : 0 ≤ ⌊(v - mn) / w⌋ := Int.floor_nonneg.2 hq0
  have hfln : ⌊(v - mn) / w⌋ ≤ (nbins : Int) := by
    have h3 := Int.floor_le_floor hqn
    rwa [Int.floor_natCast] at h3
  simp only [binIndexOf, cppTrunc]
  rw [if_pos hq0]
  by_cases hcase : (nbins : Int) ≤ ⌊(v - mn) / w⌋
  · rw [if_pos hcase]
    refine ⟨by omega, by omega, by omega⟩
  · rw [if_neg hcase]
    refine ⟨hfl0, by omega, by omega⟩

theorem getD_set_same : ∀ (bins : List Nat) (j : Nat), j < bins.length →
    ∀ x, (bins.set j x).getD j 0 = x
  | [], j, h, x => absurd h (by simp)
  | b :: bs, 0, _, x => rfl
  | b :: bs, j + 1, h, x => by
    simpa using getD_set_same bs j (by simpa using h) x

theorem getD_set_ne : ∀ (bins : List Nat) (i j : Nat), j ≠ i →
    ∀ x, (bins.set j x).getD i 0 = bins.getD i 0
  | [], _, _, _, _ => rfl
  | b :: bs, 0, 0, h, x => absurd rfl h
  | b :: bs, 0, j + 1, _, x => rfl
  | b :: bs, i + 1, 0, _, x => rfl
  | b :: bs, i + 1, j + 1, h, x => by
    simpa using getD_set_ne bs i j (by omega) x

theorem sum_set_add_one : ∀ (bins : List Nat) (j : Nat) (h : j < bins.length),
    (bins.set j (bins.get ⟨j, h⟩ + 1)).sum = bins.sum + 1
  | [], j, h => absurd h (by simp)
  | b :: bs, 0, _ => by simp [List.set]; omega
  | b :: bs, j + 1, h => by
    have := sum_set_add_one bs j (by simpa using h)
    simp only [List.set, List.sum_cons]
    simp only [List.get_cons_succ] at *
    omega

theorem getD_eq_get (l : List Nat) (i : Nat) (h : i < l.length) :
    l.getD i 0 = l.get ⟨i, h⟩ := by
  simp [List.getD_eq_getElem?_getD, List.getElem?_eq_getElem h, List.get_eq_getElem]

theorem getD_replicate_zero (n i : Nat) : (List.replicate n (0 : Nat)).getD i 0 = 0 := by
  induction n generalizing i with
  | zero => rfl
  | succ m ih =>
    cases i with
    | zero => rfl
    | succ k => exact ih k

theorem fillBins_ok_spec (mn w : ℚ) (nbins : Nat) :
    ∀ (values : List ℚ) (bins : List Nat), bins.length = nbins →
    (∀ v ∈ values, 0 ≤ binIndexOf mn w nbins v ∧ (binIndexOf mn w nbins v).toNat < nbins) →
    ∃ bins', fillBins mn w nbins values bins = .ok bins'
      ∧ bins'.length = nbins
      ∧ (∀ i, i < nbins → bins'.getD i 0 = bins.getD i 0 +
          List.countP (fun u => binIndexOf mn w nbins u == (i : Int)) values)
      ∧ bins'.sum = bins.sum + values.length
  | [], bins, hlen, _ => ⟨bins, rfl, hlen, fun i _ => by simp, by simp⟩
  | v :: rest, bins, hlen, hin => by
    obtain ⟨h0, hlt⟩ := hin v (List.mem_cons_self v rest)
    have hidx : (binIndexOf mn w nbins v).toNat < bins.length := by omega
    obtain ⟨bins', hok, hlen', hcount, hsum⟩ :=
      fillBins_ok_spec mn w nbins rest
        (bins.set (binIndexOf mn w nbins v).toNat
          (bins.get ⟨(binIndexOf mn w nbins v).toNat, hidx⟩ + 1))
        (by simpa using hlen)
        (fun u hu => hin u (List.mem_cons_of_mem v hu))
    refine ⟨bins', ?_, hlen', ?_, ?_⟩
    · unfold fillBins
      rw [dif_pos ⟨h0, hidx⟩]
      exact hok
    · intro i hi
      rw [hcount i hi, List.countP_cons]
      by_cases hji : (binIndexOf mn w nbins v).toNat = i
      · subst hji
        rw [getD_set_same bins _ hidx,
          getD_eq_get bins _ hidx]
        have hb : (binIndexOf mn w nbins v == ((binIndexOf mn w nbins v).toNat : Int))
            = true := by
          rw [beq_iff_eq]
          omega
        rw [hb]
        simp only [if_true]
        omega
      · rw [getD_set_ne bins i _ hji]
        have hb : (binIndexOf mn w nbins v == (i : Int)) = false := by
          rw [beq_eq_false_iff_ne]
          intro hEq
          apply hji
          omega
        rw [hb]
        simp
    · rw [hsum, sum_set_add_one bins _ hidx]
      simp only [List.length_cons]
      omega

/-- Claim C1: on a non-empty value list with distinct minimum and maximum
and `nbins ≥ 1`, `histogram` appends exactly one series with column
descriptor `"1:2"` and one row per bin; row `i` is
`(min + binwidth * (i + 0.5), count of values in bin i)` where
`binwidth = (max - min) / nbins`; the bin counts sum to the number of input
values; and each value's bin is `floor((value - min) / binwidth)` with an
index that reaches `nbins` clamped down to `nbins - 1`. -/
theorem histogram_bins_spec (values : List ℚ) (nbins : Nat) (label : String)
    (style : LineStyle) (s : Gnuplot)
    (hvne : values ≠ []) (hn : nbins ≠ 0)
    (hmm : listMin values ≠ listMax values)
    (hmode : s.series = [] ∨ s.is_3dplot = false) :
    histogram values nbins label style s =
      .ok { s with
            series := s.series ++
              [⟨(List.range nbins).map (fun (i : Nat) =>
                  [listMin values + binWidthOf values nbins * ((i : ℚ) + 1/2),
                   (List.countP (fun u =>
                      binIndexOf (listMin values) (binWidthOf values nbins) nbins u
                        == (i : Int)) values : ℚ)]),
                style, label, "1:2"⟩]
            is_3dplot := false }
    ∧ ((List.range nbins).map (fun (i : Nat) =>
        List.countP (fun u =>
          binIndexOf (listMin values) (binWidthOf values nbins) nbins u
            == (i : Int)) values)).sum = values.length
    ∧ (∀ v ∈ values,
        binIndexOf (listMin values) (binWidthOf values nbins) nbins v
          = min ⌊(v - listMin values) / binWidthOf values nbins⌋ ((nbins : Int) - 1)) := by
  have hlt : listMin values < listMax values :=
    lt_of_le_of_ne (listMin_le_listMax hvne) hmm
  have hrange : ∀ v ∈ values,
      0 ≤ binIndexOf (listMin values) (binWidthOf values nbins) nbins v
      ∧ (binIndexOf (listMin values) (binWidthOf values nbins) nbins v).toNat < nbins
      ∧ binIndexOf (listMin values) (binWidthOf values nbins) nbins v
          = min ⌊(v - listMin values) / binWidthOf values nbins⌋ ((nbins : Int) - 1) :=
    fun v hv => binIndexOf_range hlt hn rfl (listMin_le hv) (le_listMax hv)
  obtain ⟨bins', hok, hlen', hcount, hsum⟩ :=
    fillBins_ok_spec (listMin values) (binWidthOf values nbins) nbins values
      (List.replicate nbins 0) (by simp)
      (fun v hv => ⟨(hrange v hv).1, (hrange v hv).2.1⟩)
  have hmode' : ¬(s.series ≠ [] ∧ s.is_3dplot) := by
    rcases hmode with h | h <;> simp [h]
  have hrows : (List.range nbins).map (fun (i : Nat) =>
        [listMin values + binWidthOf values nbins * ((i : ℚ) + 1/2),
         (bins'.getD i 0 : ℚ)])
      = (List.range nbins).map (fun (i : Nat) =>
        [listMin values + binWidthOf values nbins * ((i : ℚ) + 1/2),
         (List.countP (fun u =>
            binIndexOf (listMin values) (binWidthOf values nbins) nbins u
              == (i : Int)) values : ℚ)]) := by
    apply List.map_congr_left
    intro i hi
    rw [hcount i (List.mem_range.1 hi), getD_replicate_zero]
    simp
  refine ⟨?_, ?_, fun v hv => (hrange v hv).2.2⟩
  · have hstep : histogram values nbins label style s =
        .ok { s with
              series := s.series ++
                [⟨(List.range nbins).map (fun (i : Nat) =>
                    [listMin values + binWidthOf values nbins * ((i : ℚ) + 1/2),
                     (bins'.getD i 0 : ℚ)]),
                  style, label, "1:2"⟩]
              is_3dplot := false } := by
      unfold histogram
      rw [if_neg hn, if_neg hvne, if_neg hmode']
      simp only []
      rw [hok]
    rw [hstep, hrows]
  · have hbins : bins' = (List.range nbins).map (fun (i : Nat) =>
        List.countP (fun u =>
          binIndexOf (listMin values) (binWidthOf values nbins) nbins u
            == (i : Int)) values) := by
      apply List.ext_getElem
      · simp [hlen']
      · intro i h1 h2
        have hi : i < nbins := by omega
        have h3 := hcount i hi
        rw [getD_replicate_zero, Nat.zero_add] at h3
        rw [getD_eq_get bins' i h1, List.get_eq_getElem] at h3
        rw [h3]
        simp
    rw [← hbins, hsum]
    simp

/-- Witness for C1 on `[1,2,3,4,5]` with 2 bins: the bin counts sum to 5,
the boundary value 5 is clamped into the last bin, the bin width is 2, and
the two bin centers are 2 and 4. -/
theorem histogram_bins_spec_witness :
    ((List.range 2).map (fun (i : Nat) =>
        List.countP (fun u =>
          binIndexOf (listMin [1, 2, 3, 4, 5]) (binWidthOf [1, 2, 3, 4, 5] 2) 2 u
            == (i : Int)) [1, 2, 3, 4, 5])).sum = 5
    ∧ binIndexOf (listMin [1, 2, 3, 4, 5]) (binWidthOf [1, 2, 3, 4, 5] 2) 2 5
        = min ⌊((5 : ℚ) - listMin [1, 2, 3, 4, 5]) / binWidthOf [1, 2, 3, 4, 5] 2⌋
            ((2 : Int) - 1)
    ∧ binIndexOf (listMin [1, 2, 3, 4, 5]) (binWidthOf [1, 2, 3, 4, 5] 2) 2 5 = 1
    ∧ binWidthOf [1, 2, 3, 4, 5] 2 = 2
    ∧ listMin [1, 2, 3, 4, 5] + binWidthOf [1, 2, 3, 4, 5] 2 * ((0 : ℚ) + 1/2) = 2
    ∧ listMin [1, 2, 3, 4, 5] + binWidthOf [1, 2, 3, 4, 5] 2 * ((1 : ℚ) + 1/2) = 4 :=
  ⟨(histogram_bins_spec [1, 2, 3, 4, 5] 2 "" .BOXES (initGnuplot true)
      (by decide) (by decide) (by decide) (Or.inl (by decide))).2.1,
   (histogram_bins_spec [1, 2, 3, 4, 5] 2 "" .BOXES (initGnuplot true)
      (by decide) (by decide) (by decide) (Or.inl (by decide))).2.2 5 (by decide),
   by norm_num [binIndexOf, cppTrunc, binWidthOf, listMin, listMax],
   by norm_num [binWidthOf, listMin, listMax],
   by norm_num [binWidthOf, listMin, listMax],
   by norm_num [binWidthOf, listMin, listMax]⟩
